import Mathlib

/-!
Verification of the news search-and-analysis pipeline.

Text is modelled as a list of characters (Python strings are sequences of code
points).  External effects are modelled as explicit parameters: the outcome of a
language-model call is an Except value (error carries the exception message),
the outcome of an HTTP fetch or HEAD probe is an inductive outcome type, and the
search backend is a function from the query to its outcome.  Pure string
processing (clean_text, truncation, filtering) is translated directly from the
Python sources.
-/

namespace StockAgent

/-- Models the character class removed by the Python str.strip() calls: the
ASCII whitespace characters (space, tab, newline, carriage return, vertical
tab, form feed).  Unicode whitespace beyond ASCII is not modelled; no claim
depends on it. -/
def isPyWs (c : Char) : Bool :=
  c = ' ' || c = '\t' || c = '\n' || c = '\r' || c = Char.ofNat 11 || c = Char.ofNat 12

/-- Freedom from adjacent repetitions of the character c, the invariant
established by collapsing runs of c. -/
def noDouble (c a b : Char) : Prop := ¬(a = c ∧ b = c)

/-- Models re.sub collapsing every maximal run of the character c into a single
occurrence of c, as used by clean_text for newline runs and space runs
(google-working.py lines 64-68, google-search.py lines 101-105). -/
def collapseRuns (c : Char) : List Char → List Char
  | [] => []
  | [a] => [a]
  | a :: b :: rest =>
    if a = c ∧ b = c then collapseRuns c (b :: rest)
    else a :: collapseRuns c (b :: rest)

/-- Models Python str.split on a single character: text.split(c).  The empty
string splits to one empty piece, matching Python. -/
def splitOnChar (c : Char) : List Char → List (List Char)
  | [] => [[]]
  | a :: rest =>
    if a = c then [] :: splitOnChar c rest
    else (a :: (splitOnChar c rest).headI) :: (splitOnChar c rest).tail

/-- Models Python str.strip(): remove leading and trailing whitespace. -/
def pyStrip (l : List Char) : List Char :=
  List.rdropWhile isPyWs (List.dropWhile isPyWs l)

/-- Models Python sep.join(pieces). -/
def joinWith (sep : List Char) : List (List Char) → List Char
  | [] => []
  | [p] => p
  | p :: q :: ps => p ++ sep ++ joinWith sep (q :: ps)

/-- Translation of clean_text (google-working.py lines 60-77, google-search.py
lines 97-114): collapse newline runs, collapse space runs, split into lines,
strip each line, drop empty lines, join the lines with a single space. -/
def clean_text (text : List Char) : List Char :=
  joinWith [' ']
    (((splitOnChar '\n' (collapseRuns ' ' (collapseRuns '\n' text))).map pyStrip).filter
      (fun line => !line.isEmpty))

/-- The literal suffix appended on truncation (google-working.py line 106). -/
def truncation_marker : List Char := String.toList "... [content truncated]"

/-- Translation of the truncation step of extract_content (google-working.py
lines 104-108, google-search.py lines 141-145): contents longer than 10000
characters are cut to their first 10000 characters and the marker is appended. -/
def truncate_content (clean_content : List Char) : List Char :=
  if clean_content.length > 10000 then clean_content.take 10000 ++ truncation_marker
  else clean_content

/-- Outcome of the HTTP GET issued by extract_content, one constructor per
except-clause of the Python code; success carries the visible text produced by
the HTML parsing step (soup.get_text after removing script, style, nav, footer,
header, aside and form elements), which is external to the repository. -/
inductive FetchOutcome where
  | success (page_text : List Char)
  | timeout
  | connectionError
  | httpError (msg : List Char)
  | requestException (msg : List Char)
  | otherException (msg : List Char)

/-- Translation of extract_content (google-working.py lines 79-119,
google-search.py lines 116-156): on success the parsed page text is cleaned and
truncated; every failure returns the corresponding error message string, with
the formatted exception text modelled as the msg carried by the outcome. -/
def extract_content (url : List Char) (outcome : FetchOutcome) : List Char :=
  match outcome with
  | FetchOutcome.success page_text => truncate_content (clean_text page_text)
  | FetchOutcome.timeout => String.toList "Error: Request timed out for " ++ url
  | FetchOutcome.connectionError => String.toList "Error: Connection error for " ++ url
  | FetchOutcome.httpError msg =>
      String.toList "Error: HTTP error " ++ msg ++ String.toList " for " ++ url
  | FetchOutcome.requestException msg =>
      String.toList "Error: Request exception " ++ msg ++ String.toList " for " ++ url
  | FetchOutcome.otherException msg =>
      String.toList "Error extracting content: " ++ msg ++ String.toList " for " ++ url

/-- Translation of enhance_query_with_llm (google-working.py lines 17-47,
google-search.py lines 17-54): the language-model call outcome is some response
text on success (then returned stripped) or none when the call raised (then the
original user query is returned unchanged). -/
def enhance_query_with_llm (llmOutcome : Option (List Char)) (user_query : List Char) :
    List Char :=
  match llmOutcome with
  | some response => pyStrip response
  | none => user_query

/-- Translation of google_search (google-working.py lines 49-58): the external
search call either yields a list of result URLs or raises (error carries the
message); on error the function returns the empty list instead of raising. -/
def google_search (backendOutcome : Except (List Char) (List (List Char))) :
    List (List Char) :=
  match backendOutcome with
  | Except.ok search_results => search_results
  | Except.error _ => []

/-- One result entry of search_and_extract, modelled as the key-value pairs of
the Python dict literal at google-working.py lines 139-142: exactly the keys
url and content, in that order. -/
def resultEntry (url content : List Char) : List (List Char × List Char) :=
  [(String.toList "url", url), (String.toList "content", content)]

/-- Result of search_and_extract: either the sentinel returned when the search
produced no URLs (the Python code returns the one-element string list
containing the text modelled by no_results_message), or the per-URL entries. -/
inductive SearchExtractResult where
  | noResults
  | docs (entries : List (List (List Char × List Char)))

/-- The sentinel text of the no-results branch (google-working.py line 132). -/
def no_results_message : List Char := String.toList "No results found for the query."

/-- Translation of search_and_extract (google-working.py lines 121-147,
google-search.py lines 158-184): enhance the query, search, and if no URLs came
back return the no-results sentinel; otherwise build one entry per URL, in
order, whose content is whatever extract_content returned for that URL. -/
def search_and_extract (llmOutcome : Option (List Char))
    (backend : List Char → Except (List Char) (List (List Char)))
    (fetch : List Char → FetchOutcome) (user_query : List Char) : SearchExtractResult :=
  let enhanced_query := enhance_query_with_llm llmOutcome user_query
  let urls := google_search (backend enhanced_query)
  if urls.isEmpty then SearchExtractResult.noResults
  else SearchExtractResult.docs
    (urls.map (fun url => resultEntry url (extract_content url (fetch url))))

/-- Outcome of the HEAD probe issued by check_url_accessibility: a completed
response with its HTTP status code, or one of the requests.RequestException
failures the Python except-clause catches. -/
inductive ProbeOutcome where
  | status (code : Nat)
  | timeout
  | connectionError
  | otherRequestError

/-- Translation of check_url_accessibility (app3.py lines 18-27): a completed
probe is accessible exactly when its status code is not 403; any request
exception is treated as inaccessible. -/
def check_url_accessibility (probe : ProbeOutcome) : Bool :=
  match probe with
  | ProbeOutcome.status code => code != 403
  | ProbeOutcome.timeout => false
  | ProbeOutcome.connectionError => false
  | ProbeOutcome.otherRequestError => false

/-- A document as consumed by app3.py and dl.py: the dict with keys url,
publication_date and content produced by the imported search_and_extract of
data_collection.google_latest. -/
structure Article where
  url : List Char
  publication_date : List Char
  content : List Char
deriving DecidableEq

/-- Translation of filter_accessible_content (app3.py lines 29-39): keep the
items whose URL passes check_url_accessibility; probe gives each URL its HEAD
outcome. -/
def filter_accessible_content (probe : List Char → ProbeOutcome)
    (content_list : List Article) : List Article :=
  content_list.filter (fun item => check_url_accessibility (probe item.url))

/-- The stored-content marker dl.py matches on to recognise a forbidden fetch
(dl.py lines 113, 158). -/
def forbidden403 : List Char :=
  String.toList "Error: HTTP error 403 Client Error: Forbidden for url:"

/-- Translation of the distillation input filter of dl.py (line 158 and line
284): keep the items whose content does not start with the forbidden marker. -/
def filtered_content (results : List Article) : List Article :=
  results.filter (fun item => !(List.isPrefixOf forbidden403 item.content))

/-- A distilled article as built by distill_individual_article (dl.py lines
43-53). -/
structure DistilledArticle where
  url : List Char
  publication_date : List Char
  distilled_content : List Char
deriving DecidableEq

/-- The error marker of the distillation failure branch (dl.py line 52). -/
def distill_error_marker : List Char := String.toList "Error in distillation: "

/-- Translation of distill_individual_article (dl.py lines 13-53): on success
the record carries the model response as distilled_content; when the call
raises, the record carries the marker followed by the exception text, and in
both cases it keeps the url and publication_date of the source article. -/
def distill_individual_article (llmOutcome : Except (List Char) (List Char))
    (article : Article) : DistilledArticle :=
  match llmOutcome with
  | Except.ok response_text =>
      { url := article.url, publication_date := article.publication_date,
        distilled_content := response_text }
  | Except.error e =>
      { url := article.url, publication_date := article.publication_date,
        distilled_content := distill_error_marker ++ e }

/-- Translation of the distillation loop of dl.py main (lines 169-186): one
distilled record is appended per input article, in order, regardless of the
outcome of its language-model call; llm gives each article its call outcome. -/
def distill_articles (llm : Article → Except (List Char) (List Char))
    (articles : List Article) : List DistilledArticle :=
  articles.map (fun article => distill_individual_article (llm article) article)

/-- Models the per-item header block of the synthesis context (app3.py lines
46-47). -/
def article_block (item : Article) : List Char :=
  String.toList "Source: " ++ item.url ++ String.toList "\nDate: " ++
    item.publication_date ++ String.toList "\n" ++ item.content

/-- Models the prompt built by analyze_with_chatgpt (app3.py lines 50-58); the
surrounding indentation of the Python triple-quoted literal is elided. -/
def analysis_prompt (content_list : List Article) (user_query : List Char) : List Char :=
  String.toList "Analyze the following content and provide a detailed report based on this query: " ++
    user_query ++ String.toList "\n\nCONTENT:\n" ++
    joinWith (String.toList "\n\n") (content_list.map article_block) ++
    String.toList "\n\nPlease structure your report with clear sections, bullet points where appropriate, and highlight key insights. Format your response in markdown."

/-- The error marker of the synthesis failure branch of app3.py (line 73). -/
def analysis_error_marker : List Char := String.toList "Error in ChatGPT analysis: "

/-- Translation of analyze_with_chatgpt (app3.py lines 41-73): build the prompt
from the accessible content and the analysis query, issue one language-model
call, return its text on success and the error marker followed by the
exception text when it raises. -/
def analyze_with_chatgpt (llm : List Char → Except (List Char) (List Char))
    (content_list : List Article) (user_query : List Char) : List Char :=
  match llm (analysis_prompt content_list user_query) with
  | Except.ok response_text => response_text
  | Except.error e => analysis_error_marker ++ e

/-- Models the per-item header block of the distilled synthesis context (dl.py
lines 60-63). -/
def distilled_block (item : DistilledArticle) : List Char :=
  String.toList "Source: " ++ item.url ++ String.toList "\nDate: " ++
    item.publication_date ++ String.toList "\n" ++ item.distilled_content

/-- Models the prompt built by generate_report_from_distilled_content (dl.py
lines 66-75); the surrounding indentation of the Python triple-quoted literal
is elided. -/
def report_prompt (distilled_articles : List DistilledArticle) (user_query : List Char) :
    List Char :=
  String.toList "Based on the following distilled information from multiple articles, create a comprehensive analysis report addressing this query: " ++
    user_query ++ String.toList "\n\nDISTILLED CONTENT FROM ARTICLES:\n" ++
    joinWith (String.toList "\n\n") (distilled_articles.map distilled_block) ++
    String.toList "\n\nPlease structure your report with clear sections, bullet points where appropriate, and highlight key insights. Format your response in markdown."

/-- The error marker of the synthesis failure branch of dl.py (line 90). -/
def report_error_marker : List Char := String.toList "Error in report generation: "

/-- Translation of generate_report_from_distilled_content (dl.py lines 55-90):
build the prompt from the distilled articles and the analysis query, issue one
language-model call, return its text on success and the error marker followed
by the exception text when it raises. -/
def generate_report_from_distilled_content
    (llm : List Char → Except (List Char) (List Char))
    (distilled_articles : List DistilledArticle) (user_query : List Char) : List Char :=
  match llm (report_prompt distilled_articles user_query) with
  | Except.ok response_text => response_text
  | Except.error e => report_error_marker ++ e

/-- Modelled from the spec: dl.py and app3.py import search_and_extract from
data_collection.google_latest, a module absent from the repository sources.
Per the spec (SearchBackend and ContentExtractor contracts and the Document
data model), it resolves the query to an ordered sequence of candidate URLs
and produces exactly one document per candidate URL, in order, carrying url,
publication_date and content, where content holds the cleaned, truncated text
on success or the fetch error message on failure, as extract_content does.
The candidate URLs and the per-URL date and fetch outcomes are parameters. -/
def latest_search_and_extract (urls : List (List Char))
    (fetch_date : List Char → List Char) (fetch : List Char → FetchOutcome) :
    List Article :=
  urls.map (fun url =>
    { url := url, publication_date := fetch_date url,
      content := extract_content url (fetch url) })

/-- Fixture article for witnesses. -/
def wArticle : Article := { url := ['u'], publication_date := ['d'], content := ['c'] }

/-- Fixture article whose stored content carries the forbidden 403 marker. -/
def wForbiddenArticle : Article :=
  { url := ['u'], publication_date := ['d'], content := forbidden403 ++ [' '] }

/-- C1: for every cleaned document content string, the stored content has
length at most 10000 plus the length of the truncation marker; the marker is
appended, making the stored content exactly the first 10000 characters of the
cleaned content followed by the marker, exactly when the cleaned content
exceeds 10000 characters; otherwise the content is stored unchanged. -/
theorem C1_truncation (clean_content : List Char) :
    (truncate_content clean_content).length ≤ 10000 + truncation_marker.length ∧
    (truncate_content clean_content = clean_content.take 10000 ++ truncation_marker ↔
      10000 < clean_content.length) ∧
    (clean_content.length ≤ 10000 → truncate_content clean_content = clean_content) := by
  unfold truncate_content
  by_cases h : clean_content.length > 10000
  · rw [if_pos h]
    refine ⟨?_, ⟨fun _ => h, fun _ => rfl⟩, fun hle => absurd h (by omega)⟩
    simp only [List.length_append, List.length_take]
    omega
  · rw [if_neg h]
    push_neg at h
    refine ⟨by omega, ⟨?_, fun hgt => absurd hgt (by omega)⟩, fun _ => rfl⟩
    intro heq
    have htake : clean_content.take 10000 = clean_content := List.take_of_length_le h
    rw [htake] at heq
    have hlen := congrArg List.length heq
    rw [List.length_append] at hlen
    have hm : truncation_marker.length = 0 := by omega
    rw [List.length_eq_zero] at hm
    have hne : truncation_marker ≠ [] := by decide
    exact absurd hm hne

/-- Witness for C1 at a 15000-character clean content. -/
theorem C1_truncation_witness :
    truncate_content (List.replicate 15000 'a') =
      List.replicate 10000 'a' ++ truncation_marker := by
  have hlen : 10000 < (List.replicate 15000 'a').length := by
    rw [List.length_replicate]; omega
  have h := (C1_truncation (List.replicate 15000 'a')).2.1.mpr hlen
  rw [List.take_replicate] at h
  have hmin : min 10000 15000 = 10000 := by omega
  rw [hmin] at h
  exact h

/-- C2: when the language-model call fails, enhance_query_with_llm returns the
original raw query unchanged, hence the enhanced query is non-empty whenever
the raw query is non-empty (and it is a genuine string, never an absent value,
by the return type). -/
theorem C2_enhancement_fallback (user_query : List Char) :
    enhance_query_with_llm none user_query = user_query ∧
    (user_query ≠ [] → enhance_query_with_llm none user_query ≠ []) :=
  ⟨rfl, fun h => h⟩

/-- Witness for C2 at a concrete non-empty raw query. -/
theorem C2_enhancement_fallback_witness :
    enhance_query_with_llm none ['n', 'e', 'w', 's'] = ['n', 'e', 'w', 's'] ∧
    enhance_query_with_llm none ['n', 'e', 'w', 's'] ≠ [] :=
  ⟨(C2_enhancement_fallback ['n', 'e', 'w', 's']).1,
   (C2_enhancement_fallback ['n', 'e', 'w', 's']).2 (by decide)⟩

/-- C3: when the search produced no URLs, including when the backend raised
and google_search turned that into an empty list instead, search_and_extract
returns the distinct no-results signal carrying zero documents, and it does so
for every possible fetch behaviour, so no downstream stage is consulted; the
signal differs from every document-carrying result. -/
theorem C3_no_results (llmOutcome : Option (List Char))
    (backend : List Char → Except (List Char) (List (List Char))) (user_query : List Char)
    (hempty : google_search (backend (enhance_query_with_llm llmOutcome user_query)) = []) :
    (∀ fetch : List Char → FetchOutcome,
      search_and_extract llmOutcome backend fetch user_query =
        SearchExtractResult.noResults) ∧
    (∀ entries, SearchExtractResult.noResults ≠ SearchExtractResult.docs entries) ∧
    (∀ e, google_search (Except.error e) = []) := by
  refine ⟨?_, fun entries h => SearchExtractResult.noConfusion h, fun e => rfl⟩
  intro fetch
  unfold search_and_extract
  simp [hempty]

/-- Witness for C3: a backend that raises, under an arbitrary fetch. -/
theorem C3_no_results_witness :
    search_and_extract none (fun _ => Except.error ['b']) (fun _ => FetchOutcome.timeout)
      ['q'] = SearchExtractResult.noResults :=
  (C3_no_results none (fun _ => Except.error ['b']) ['q'] rfl).1
    (fun _ => FetchOutcome.timeout)

/-- C4: the accessibility check returns Accessible (true) exactly when the HEAD
probe completed without exception with an HTTP status code other than 403, and
every probe-level request exception yields Denied (false). -/
theorem C4_accessibility (probe : ProbeOutcome) :
    (check_url_accessibility probe = true ↔
      ∃ code, probe = ProbeOutcome.status code ∧ code ≠ 403) ∧
    check_url_accessibility ProbeOutcome.timeout = false ∧
    check_url_accessibility ProbeOutcome.connectionError = false ∧
    check_url_accessibility ProbeOutcome.otherRequestError = false := by
  refine ⟨?_, rfl, rfl, rfl⟩
  cases probe with
  | status code => simp [check_url_accessibility, bne_iff_ne]
  | timeout => simp [check_url_accessibility]
  | connectionError => simp [check_url_accessibility]
  | otherRequestError => simp [check_url_accessibility]

/-- C5: a document recognised as forbidden by the stored 403 error-message
marker is absent from the distillation input set of dl.py, and a document whose
HEAD probe verdict is Denied is absent from the accessible set that app3.py
passes to synthesis. -/
theorem C5_denied_excluded (results content_list : List Article)
    (probe : List Char → ProbeOutcome) (item : Article) :
    (item ∈ results → List.isPrefixOf forbidden403 item.content = true →
      item ∉ filtered_content results) ∧
    (item ∈ content_list → check_url_accessibility (probe item.url) = false →
      item ∉ filter_accessible_content probe content_list) := by
  constructor
  · intro _ hpre hmem
    rw [filtered_content, List.mem_filter] at hmem
    simp [hpre] at hmem
  · intro _ hdenied hmem
    rw [filter_accessible_content, List.mem_filter] at hmem
    simp [hdenied] at hmem

/-- Witness for C5: a forbidden-content article and a 403-probed article. -/
theorem C5_denied_excluded_witness :
    wForbiddenArticle ∉ filtered_content [wForbiddenArticle] ∧
    wArticle ∉ filter_accessible_content (fun _ => ProbeOutcome.status 403) [wArticle] := by
  constructor
  · exact (C5_denied_excluded [wForbiddenArticle] [] (fun _ => ProbeOutcome.timeout)
      wForbiddenArticle).1 (by simp)
      (by simp [wForbiddenArticle, List.isPrefixOf_iff_prefix])
  · exact (C5_denied_excluded [] [wArticle] (fun _ => ProbeOutcome.status 403) wArticle).2
      (by simp) rfl

/-- C6: in a run of the distilling pipeline whose backend honours the
max_results cap, the distilled count is at most the accessible count, the
accessible set is a filter of the fetched documents, the fetched documents are
exactly the candidates returned by the search backend, in order, and their
number is at most max_results. -/
theorem C6_count_chain (max_results : Nat)
    (backendOutcome : Except (List Char) (List (List Char)))
    (hcap : ∀ search_results, backendOutcome = Except.ok search_results →
      search_results.length ≤ max_results)
    (fetch_date : List Char → List Char) (fetch : List Char → FetchOutcome)
    (llm : Article → Except (List Char) (List Char)) :
    (distill_articles llm (filtered_content
        (latest_search_and_extract (google_search backendOutcome) fetch_date fetch))).length ≤
      (filtered_content
        (latest_search_and_extract (google_search backendOutcome) fetch_date fetch)).length ∧
    (filtered_content
        (latest_search_and_extract (google_search backendOutcome) fetch_date fetch)).length ≤
      (latest_search_and_extract (google_search backendOutcome) fetch_date fetch).length ∧
    (latest_search_and_extract (google_search backendOutcome) fetch_date fetch).length ≤
      max_results ∧
    (latest_search_and_extract (google_search backendOutcome) fetch_date fetch).map
        Article.url = google_search backendOutcome := by
  refine ⟨by simp [distill_articles], List.length_filter_le _ _, ?_, ?_⟩
  · have hlen : (latest_search_and_extract (google_search backendOutcome)
        fetch_date fetch).length = (google_search backendOutcome).length := by
      simp [latest_search_and_extract]
    rw [hlen]
    cases backendOutcome with
    | ok l => exact hcap l rfl
    | error e => simp [google_search]
  · simp [latest_search_and_extract, Function.comp_def]

/-- Witness for C6 at a one-URL backend with cap 2. -/
theorem C6_count_chain_witness :
    (latest_search_and_extract (google_search (Except.ok [['a']])) (fun _ => ['d'])
      (fun _ => FetchOutcome.timeout)).length ≤ 2 :=
  (C6_count_chain 2 (Except.ok [['a']]) (fun sr h => by cases h; simp)
    (fun _ => ['d']) (fun _ => FetchOutcome.timeout) (fun _ => Except.ok ['f'])).2.2.1

/-- C8: when the distillation call for an article raises, the produced record
carries the distinct error marker followed by the exception text as its
distilled_content, keeps the article url and publication_date, and is still
appended to the aggregate distilled list, whose length always equals the
number of input articles. -/
theorem C8_distill_error (article : Article) (e : List Char)
    (llm : Article → Except (List Char) (List Char)) (articles : List Article)
    (hfail : llm article = Except.error e) (hmem : article ∈ articles) :
    (distill_individual_article (llm article) article).distilled_content =
      distill_error_marker ++ e ∧
    (distill_individual_article (llm article) article).url = article.url ∧
    (distill_individual_article (llm article) article).publication_date =
      article.publication_date ∧
    distill_individual_article (llm article) article ∈ distill_articles llm articles ∧
    (distill_articles llm articles).length = articles.length := by
  refine ⟨by rw [hfail]; rfl, by rw [hfail]; rfl, by rw [hfail]; rfl, ?_,
    by simp [distill_articles]⟩
  simpa [distill_articles] using
    List.mem_map_of_mem (fun a => distill_individual_article (llm a) a) hmem

/-- Witness for C8 at a concrete article whose distillation call raises. -/
theorem C8_distill_error_witness :
    (distill_individual_article (Except.error ['x']) wArticle).distilled_content =
      distill_error_marker ++ ['x'] ∧
    distill_individual_article (Except.error ['x']) wArticle ∈
      distill_articles (fun _ => Except.error ['x']) [wArticle] := by
  have h := C8_distill_error wArticle ['x'] (fun _ => Except.error ['x']) [wArticle]
    rfl (by simp)
  exact ⟨h.1, h.2.2.2.1⟩

/-- C9 counterexample: a synthesis invocation whose language-model call
succeeds with empty response text returns an empty report body in both
synthesis variants, so the body is not never-empty as claimed. -/
theorem C9_counterexample :
    analyze_with_chatgpt (fun _ => Except.ok []) [] [] = [] ∧
    generate_report_from_distilled_content (fun _ => Except.ok []) [] [] = [] :=
  ⟨rfl, rfl⟩

/-- C9 amended: a report body string is always returned, never omitted and
never raised; when the final language-model call fails, the body is the
explanatory error marker followed by the exception text and in particular is
non-empty; when the call succeeds, the body is the model response unchanged,
which the code does not check for emptiness. -/
theorem C9_synthesis_body (content_list : List Article)
    (distilled_articles : List DistilledArticle) (user_query t e : List Char) :
    analyze_with_chatgpt (fun _ => Except.ok t) content_list user_query = t ∧
    generate_report_from_distilled_content (fun _ => Except.ok t) distilled_articles
      user_query = t ∧
    analyze_with_chatgpt (fun _ => Except.error e) content_list user_query =
      analysis_error_marker ++ e ∧
    analyze_with_chatgpt (fun _ => Except.error e) content_list user_query ≠ [] ∧
    generate_report_from_distilled_content (fun _ => Except.error e) distilled_articles
      user_query = report_error_marker ++ e ∧
    generate_report_from_distilled_content (fun _ => Except.error e) distilled_articles
      user_query ≠ [] := by
  refine ⟨rfl, rfl, rfl, ?_, rfl, ?_⟩
  · show analysis_error_marker ++ e ≠ []
    simp [analysis_error_marker]
  · show report_error_marker ++ e ≠ []
    simp [report_error_marker]

/-- C10: whenever the backend returned a non-empty URL list, search_and_extract
returns exactly one entry per URL, in the same order, each entry being the
two-field record with keys url and content and no publication_date key, and a
failing fetch still yields its entry, with the error text as the content. -/
theorem C10_entry_shape (llmOutcome : Option (List Char))
    (backend : List Char → Except (List Char) (List (List Char)))
    (fetch : List Char → FetchOutcome) (user_query : List Char) (urls : List (List Char))
    (hurls : google_search (backend (enhance_query_with_llm llmOutcome user_query)) = urls)
    (hne : urls ≠ []) :
    search_and_extract llmOutcome backend fetch user_query =
      SearchExtractResult.docs
        (urls.map (fun url => resultEntry url (extract_content url (fetch url)))) ∧
    (urls.map (fun url => resultEntry url (extract_content url (fetch url)))).length =
      urls.length ∧
    (∀ entry ∈ urls.map (fun url => resultEntry url (extract_content url (fetch url))),
      entry.map Prod.fst = [String.toList "url", String.toList "content"] ∧
      List.lookup (String.toList "publication_date") entry = none) ∧
    (∀ url, extract_content url FetchOutcome.timeout =
      String.toList "Error: Request timed out for " ++ url) ∧
    (∀ url msg, extract_content url (FetchOutcome.httpError msg) =
      String.toList "Error: HTTP error " ++ msg ++ String.toList " for " ++ url) := by
  refine ⟨?_, by simp, ?_, fun url => rfl, fun url msg => rfl⟩
  · unfold search_and_extract
    simp [hurls, hne]
  · intro entry hentry
    rw [List.mem_map] at hentry
    obtain ⟨url, _, rfl⟩ := hentry
    refine ⟨rfl, ?_⟩
    have h1 : (String.toList "publication_date" == String.toList "url") = false := by decide
    have h2 : (String.toList "publication_date" == String.toList "content") = false := by
      decide
    simp [resultEntry, List.lookup, h1, h2]

/-- Witness for C10 at a two-URL backend whose fetches time out. -/
theorem C10_entry_shape_witness :
    search_and_extract none (fun _ => Except.ok [['a'], ['b']])
      (fun _ => FetchOutcome.timeout) ['q'] =
    SearchExtractResult.docs
      [resultEntry ['a'] (String.toList "Error: Request timed out for " ++ ['a']),
       resultEntry ['b'] (String.toList "Error: Request timed out for " ++ ['b'])] := by
  have h := (C10_entry_shape none (fun _ => Except.ok [['a'], ['b']])
    (fun _ => FetchOutcome.timeout) ['q'] [['a'], ['b']] rfl (by simp)).1
  simpa [extract_content] using h

/-- Helper: collapsing never changes the first character of a non-empty list. -/
theorem collapseRuns_head? (c : Char) : ∀ (rest : List Char) (b : Char),
    (collapseRuns c (b :: rest)).head? = some b
  | [], b => rfl
  | r :: rs, b => by
    by_cases h : b = c ∧ r = c
    · simp only [collapseRuns, if_pos h]
      rw [collapseRuns_head? c rs r, h.2, h.1]
    · simp only [collapseRuns, if_neg h]
      rfl

/-- Helper: the output of collapseRuns has no two adjacent occurrences of c. -/
theorem collapseRuns_chain' (c : Char) : ∀ l : List Char,
    List.Chain' (noDouble c) (collapseRuns c l)
  | [] => by simp [collapseRuns]
  | [a] => by simp [collapseRuns]
  | a :: b :: rest => by
    by_cases h : a = c ∧ b = c
    · simpa only [collapseRuns, if_pos h] using collapseRuns_chain' c (b :: rest)
    · simp only [collapseRuns, if_neg h]
      refine List.Chain'.cons' (collapseRuns_chain' c (b :: rest)) ?_
      intro y hy
      rw [Option.mem_def, collapseRuns_head? c rest b, Option.some.injEq] at hy
      subst hy
      exact h

/-- Helper: collapseRuns is the identity on lists already free of adjacent
repetitions of c. -/
theorem collapseRuns_eq_self (c : Char) : ∀ l : List Char,
    List.Chain' (noDouble c) l → collapseRuns c l = l
  | [] => fun _ => rfl
  | [_] => fun _ => rfl
  | a :: b :: rest => fun hch => by
    have hab : noDouble c a b := List.Chain'.rel_head hch
    simp only [collapseRuns, if_neg hab]
    rw [collapseRuns_eq_self c (b :: rest) (List.Chain'.tail hch)]

/-- Helper: a list not containing c has no adjacent repetitions of c. -/
theorem chain'_noDouble_of_not_mem (c : Char) : ∀ l : List Char, c ∉ l →
    List.Chain' (noDouble c) l := by
  intro l hl
  induction l with
  | nil => simp
  | cons a rest ih =>
    refine List.Chain'.cons' (ih (fun hm => hl (List.mem_cons_of_mem a hm))) ?_
    intro y _ hco
    exact hl (by rw [← hco.1]; exact List.mem_cons_self a rest)

/-- Helper: collapseRuns is the identity on lists not containing c. -/
theorem collapseRuns_of_not_mem (c : Char) (l : List Char) (h : c ∉ l) :
    collapseRuns c l = l :=
  collapseRuns_eq_self c l (chain'_noDouble_of_not_mem c l h)

/-- Helper: splitting always yields at least one piece. -/
theorem splitOnChar_ne_nil (c : Char) : ∀ l : List Char, splitOnChar c l ≠ []
  | [] => by simp [splitOnChar]
  | a :: rest => by
    by_cases h : a = c
    · simp [splitOnChar, h]
    · simp [splitOnChar, h]

/-- Helper: the split of any list is some piece followed by the remaining
pieces. -/
theorem splitOnChar_shape (c : Char) (l : List Char) :
    ∃ q qs, splitOnChar c l = q :: qs := by
  cases hsp : splitOnChar c l with
  | nil => exact absurd hsp (splitOnChar_ne_nil c l)
  | cons q qs => exact ⟨q, qs, rfl⟩

/-- Helper: no piece of the split contains the split character. -/
theorem splitOnChar_not_mem (c : Char) : ∀ (l p : List Char),
    p ∈ splitOnChar c l → c ∉ p
  | [], p => by
    intro hp
    simp only [splitOnChar, List.mem_singleton] at hp
    subst hp
    simp
  | a :: rest, p => by
    intro hp
    obtain ⟨q, qs, hs⟩ := splitOnChar_shape c rest
    by_cases hac : a = c
    · simp only [splitOnChar, if_pos hac, List.mem_cons] at hp
      rcases hp with rfl | hp
      · simp
      · exact splitOnChar_not_mem c rest p hp
    · simp only [splitOnChar, if_neg hac, hs, List.headI_cons, List.tail_cons,
        List.mem_cons] at hp
      rcases hp with rfl | hp
      · intro hc
        rcases List.mem_cons.mp hc with hca | hcq
        · exact hac hca.symm
        · exact splitOnChar_not_mem c rest q (by rw [hs]; exact List.mem_cons_self q qs) hcq
      · exact splitOnChar_not_mem c rest p (by rw [hs]; exact List.mem_cons_of_mem q hp)

/-- Helper: splitting a list that does not contain the split character yields
that list as the single piece. -/
theorem splitOnChar_of_not_mem (c : Char) : ∀ l : List Char, c ∉ l →
    splitOnChar c l = [l]
  | [] => fun _ => rfl
  | a :: rest => fun hl => by
    have hac : ¬a = c := fun h => hl (by rw [← h]; exact List.mem_cons_self a rest)
    have hrest : splitOnChar c rest = [rest] :=
      splitOnChar_of_not_mem c rest (fun hm => hl (List.mem_cons_of_mem a hm))
    simp only [splitOnChar, if_neg hac, hrest, List.headI_cons, List.tail_cons]

/-- Helper: the head of the first split piece is the head of the list. -/
theorem splitOnChar_first_head (c : Char) (l q : List Char) (qs : List (List Char))
    (hs : splitOnChar c l = q :: qs) (y : Char) (hy : q.head? = some y) :
    l.head? = some y := by
  cases l with
  | nil =>
    simp only [splitOnChar] at hs
    injection hs with h1 _
    rw [← h1] at hy
    exact Option.noConfusion hy
  | cons b rs =>
    by_cases hbc : b = c
    · simp only [splitOnChar, if_pos hbc] at hs
      injection hs with h1 _
      rw [← h1] at hy
      exact Option.noConfusion hy
    · simp only [splitOnChar, if_neg hbc] at hs
      injection hs with h1 _
      rw [← h1] at hy
      simp only [List.head?_cons, Option.some.injEq] at hy
      subst hy
      rfl

/-- Helper: each split piece of a chain-free list is itself chain-free, for any
adjacency relation. -/
theorem splitOnChar_chain' {R : Char → Char → Prop} (c : Char) :
    ∀ l : List Char, List.Chain' R l → ∀ p ∈ splitOnChar c l, List.Chain' R p
  | [] => by
    intro _ p hp
    simp only [splitOnChar, List.mem_singleton] at hp
    subst hp
    simp
  | a :: rest => by
    intro hch p hp
    obtain ⟨q, qs, hs⟩ := splitOnChar_shape c rest
    by_cases hac : a = c
    · simp only [splitOnChar, if_pos hac, List.mem_cons] at hp
      rcases hp with rfl | hp
      · simp
      · exact splitOnChar_chain' c rest (List.Chain'.tail hch) p hp
    · simp only [splitOnChar, if_neg hac, hs, List.headI_cons, List.tail_cons,
        List.mem_cons] at hp
      rcases hp with rfl | hp
      · refine List.Chain'.cons' ?_ ?_
        · exact splitOnChar_chain' c rest (List.Chain'.tail hch) q
            (by rw [hs]; exact List.mem_cons_self q qs)
        · intro y hy
          rw [Option.mem_def] at hy
          have hresthead : rest.head? = some y := splitOnChar_first_head c rest q qs hs y hy
          exact List.Chain'.rel_head? hch (by rw [Option.mem_def]; exact hresthead)
      · exact splitOnChar_chain' c rest (List.Chain'.tail hch) p
          (by rw [hs]; exact List.mem_cons_of_mem q hp)

/-- Helper: a non-empty prefix has the same head as the full list. -/
theorem prefixHeadAgree {l₁ l₂ : List Char} (h : l₁ <+: l₂) (hne : l₁ ≠ []) :
    l₂.head? = l₁.head? := by
  obtain ⟨t, rfl⟩ := h
  cases l₁ with
  | nil => exact absurd rfl hne
  | cons a as => rfl

/-- Helper: the head of dropWhile fails the dropped predicate. -/
theorem dropWhile_head_false (p : Char → Bool) : ∀ (l : List Char) (y : Char),
    (List.dropWhile p l).head? = some y → p y = false
  | [], y => by
    intro h
    exact Option.noConfusion h
  | a :: rest, y => by
    intro h
    by_cases hp : p a
    · rw [List.dropWhile_cons_of_pos hp] at h
      exact dropWhile_head_false p rest y h
    · rw [List.dropWhile_cons_of_neg hp] at h
      simp only [List.head?_cons, Option.some.injEq] at h
      subst h
      simpa using hp

/-- Helper: pyStrip yields a sublist of its input. -/
theorem pyStrip_sublist (l : List Char) : (pyStrip l).Sublist l := by
  have h1 := List.rdropWhile_prefix isPyWs (List.dropWhile isPyWs l)
  have h2 := List.dropWhile_suffix (l := l) isPyWs
  exact (h1.sublist).trans h2.sublist

/-- Helper: members of the stripped list are members of the input. -/
theorem pyStrip_subset {x : Char} {l : List Char} (hx : x ∈ pyStrip l) : x ∈ l :=
  (pyStrip_sublist l).subset hx

/-- Helper: stripping preserves any adjacency invariant. -/
theorem pyStrip_chain' {R : Char → Char → Prop} {l : List Char}
    (h : List.Chain' R l) : List.Chain' R (pyStrip l) := by
  have h1 : List.Chain' R (List.dropWhile isPyWs l) :=
    List.Chain'.suffix h (List.dropWhile_suffix isPyWs)
  exact List.Chain'.prefix h1 (List.rdropWhile_prefix isPyWs _)

/-- Helper: a non-empty stripped list starts with a non-whitespace character. -/
theorem pyStrip_head (l : List Char) : ∀ y ∈ (pyStrip l).head?, isPyWs y = false := by
  intro y hy
  rw [Option.mem_def] at hy
  have hne : pyStrip l ≠ [] := by
    intro h0
    rw [h0] at hy
    exact Option.noConfusion hy
  have hpre : pyStrip l <+: List.dropWhile isPyWs l :=
    List.rdropWhile_prefix isPyWs (List.dropWhile isPyWs l)
  have hagree := prefixHeadAgree hpre hne
  rw [hy] at hagree
  exact dropWhile_head_false isPyWs l y hagree

/-- Helper: a non-empty stripped list ends with a non-whitespace character. -/
theorem pyStrip_last (l : List Char) : ∀ y ∈ (pyStrip l).getLast?, isPyWs y = false := by
  intro y hy
  rw [Option.mem_def] at hy
  have hne : pyStrip l ≠ [] := by
    intro h0
    rw [h0] at hy
    exact Option.noConfusion hy
  have h : ¬isPyWs ((pyStrip l).getLast hne) = true :=
    List.rdropWhile_last_not isPyWs (List.dropWhile isPyWs l) hne
  have hg : (pyStrip l).getLast hne = y := by
    rw [List.getLast?_eq_getLast_of_ne_nil hne, Option.some.injEq] at hy
    exact hy
  rw [hg] at h
  simpa using h

/-- Helper: stripping is the identity on lists whose two ends are already
non-whitespace. -/
theorem pyStrip_eq_self {l : List Char} (hh : ∀ y ∈ l.head?, isPyWs y = false)
    (hl : ∀ y ∈ l.getLast?, isPyWs y = false) : pyStrip l = l := by
  have h1 : List.dropWhile isPyWs l = l := by
    cases l with
    | nil => rfl
    | cons a rest =>
      have ha : isPyWs a = false := hh a rfl
      rw [List.dropWhile_cons_of_neg (by simp [ha])]
  rw [pyStrip, h1, List.rdropWhile_eq_self_iff]
  intro hne
  have := hl (l.getLast hne) (by rw [Option.mem_def, List.getLast?_eq_getLast_of_ne_nil hne])
  simp [this]

/-- Helper: joining a family whose first piece is non-empty starts with the
head of that piece. -/
theorem joinWith_head? (p : List Char) (ps : List (List Char)) (hp : p ≠ []) :
    (joinWith [' '] (p :: ps)).head? = p.head? := by
  cases ps with
  | nil => rfl
  | cons q qs =>
    cases p with
    | nil => exact absurd rfl hp
    | cons a as => rfl

/-- Helper: joining a family whose first piece is non-empty is non-empty. -/
theorem joinWith_ne_nil (p : List Char) (ps : List (List Char)) (hp : p ≠ []) :
    joinWith [' '] (p :: ps) ≠ [] := by
  intro h0
  have hh := joinWith_head? p ps hp
  rw [h0] at hh
  cases p with
  | nil => exact hp rfl
  | cons a as => exact Option.noConfusion hh

/-- Helper: unfolding of the join on two or more pieces, reassociated. -/
theorem joinWith_cons_cons (p q : List Char) (qs : List (List Char)) :
    joinWith [' '] (p :: q :: qs) = p ++ ([' '] ++ joinWith [' '] (q :: qs)) := by
  rw [show joinWith [' '] (p :: q :: qs) = (p ++ [' ']) ++ joinWith [' '] (q :: qs)
    from rfl, List.append_assoc]

/-- Helper: every character of a space-joined family is a space or belongs to
some piece. -/
theorem joinWith_mem {x : Char} : ∀ ps : List (List Char), x ∈ joinWith [' '] ps →
    x = ' ' ∨ ∃ p ∈ ps, x ∈ p
  | [] => by
    intro h
    simp [joinWith] at h
  | [p] => by
    intro h
    exact Or.inr ⟨p, List.mem_singleton_self p, h⟩
  | p :: q :: qs => by
    intro h
    rw [joinWith_cons_cons] at h
    rcases List.mem_append.mp h with h | h
    · exact Or.inr ⟨p, List.mem_cons_self p _, h⟩
    · rcases List.mem_append.mp h with h | h
      · exact Or.inl (by simpa using h)
      · rcases joinWith_mem (q :: qs) h with h | ⟨r, hr, hx⟩
        · exact Or.inl h
        · exact Or.inr ⟨r, List.mem_cons_of_mem p hr, hx⟩

/-- Helper: the final character of a space-joined family of non-empty pieces,
each ending in non-whitespace, is non-whitespace. -/
theorem joinWith_last_false : ∀ ps : List (List Char), (∀ p ∈ ps, p ≠ []) →
    (∀ p ∈ ps, ∀ y ∈ p.getLast?, isPyWs y = false) →
    ∀ y ∈ (joinWith [' '] ps).getLast?, isPyWs y = false
  | [] => by
    intro _ _ y hy
    exact Option.noConfusion hy
  | [p] => by
    intro _ hlast y hy
    exact hlast p (List.mem_singleton_self p) y hy
  | p :: q :: qs => by
    intro hne hlast y hy
    have h2 : joinWith [' '] (q :: qs) ≠ [] :=
      joinWith_ne_nil q qs (hne q (List.mem_cons_of_mem p (List.mem_cons_self q qs)))
    have hcalc : (joinWith [' '] (p :: q :: qs)).getLast? =
        (joinWith [' '] (q :: qs)).getLast? := by
      rw [joinWith_cons_cons]
      rw [List.getLast?_append_of_ne_nil p (by simp), List.getLast?_append_of_ne_nil _ h2]
    rw [hcalc] at hy
    exact joinWith_last_false (q :: qs) (fun r hr => hne r (List.mem_cons_of_mem p hr))
      (fun r hr => hlast r (List.mem_cons_of_mem p hr)) y hy

/-- Helper: the first character of a space-joined family of non-empty pieces,
each starting in non-whitespace, is non-whitespace. -/
theorem joinWith_head_false (ps : List (List Char)) (hne : ∀ p ∈ ps, p ≠ [])
    (hhead : ∀ p ∈ ps, ∀ y ∈ p.head?, isPyWs y = false) :
    ∀ y ∈ (joinWith [' '] ps).head?, isPyWs y = false := by
  cases ps with
  | nil =>
    intro y hy
    exact Option.noConfusion hy
  | cons p ps =>
    intro y hy
    rw [joinWith_head? p ps (hne p (List.mem_cons_self p ps))] at hy
    exact hhead p (List.mem_cons_self p ps) y hy

/-- Helper: the space-join of non-empty, space-chain-free pieces with
non-whitespace ends is space-chain-free. -/
theorem joinWith_chain' : ∀ ps : List (List Char), (∀ p ∈ ps, p ≠ []) →
    (∀ p ∈ ps, List.Chain' (noDouble ' ') p) →
    (∀ p ∈ ps, ∀ y ∈ p.head?, isPyWs y = false) →
    (∀ p ∈ ps, ∀ y ∈ p.getLast?, isPyWs y = false) →
    List.Chain' (noDouble ' ') (joinWith [' '] ps)
  | [] => by
    intro _ _ _ _
    simp [joinWith]
  | [p] => by
    intro _ hch _ _
    exact hch p (List.mem_singleton_self p)
  | p :: q :: qs => by
    intro hne hch hhead hlast
    rw [joinWith_cons_cons, List.chain'_append]
    refine ⟨hch p (List.mem_cons_self p _), ?_, ?_⟩
    · rw [show ([' '] ++ joinWith [' '] (q :: qs)) = ' ' :: joinWith [' '] (q :: qs)
        from rfl]
      refine List.Chain'.cons' ?_ ?_
      · exact joinWith_chain' (q :: qs) (fun r hr => hne r (List.mem_cons_of_mem p hr))
          (fun r hr => hch r (List.mem_cons_of_mem p hr))
          (fun r hr => hhead r (List.mem_cons_of_mem p hr))
          (fun r hr => hlast r (List.mem_cons_of_mem p hr))
      · intro y hy
        rw [Option.mem_def, joinWith_head? q qs
          (hne q (List.mem_cons_of_mem p (List.mem_cons_self q qs)))] at hy
        have hyf := hhead q (List.mem_cons_of_mem p (List.mem_cons_self q qs)) y hy
        intro hco
        rw [hco.2] at hyf
        simp [isPyWs] at hyf
    · intro x hx y hy
      have hxf := hlast p (List.mem_cons_self p _) x hx
      intro hco
      rw [hco.1] at hxf
      simp [isPyWs] at hxf

/-- Helper: the output of clean_text contains no newline, never has two
adjacent spaces, and begins and ends with non-whitespace characters. -/
theorem clean_text_inv (text : List Char) :
    ('\n' ∉ clean_text text) ∧
    List.Chain' (noDouble ' ') (clean_text text) ∧
    (∀ y ∈ (clean_text text).head?, isPyWs y = false) ∧
    (∀ y ∈ (clean_text text).getLast?, isPyWs y = false) := by
  have hch2 : List.Chain' (noDouble ' ')
      (collapseRuns ' ' (collapseRuns '\n' text)) :=
    collapseRuns_chain' ' ' (collapseRuns '\n' text)
  have hfrom : ∀ p ∈ ((splitOnChar '\n' (collapseRuns ' ' (collapseRuns '\n' text))).map
      pyStrip).filter (fun line => !line.isEmpty),
      p ≠ [] ∧ ∃ q ∈ splitOnChar '\n' (collapseRuns ' ' (collapseRuns '\n' text)),
        p = pyStrip q := by
    intro p hp
    rw [List.mem_filter, List.mem_map] at hp
    obtain ⟨⟨q, hq, rfl⟩, hne0⟩ := hp
    refine ⟨?_, q, hq, rfl⟩
    intro h0
    rw [h0] at hne0
    simp at hne0
  have hnep : ∀ p ∈ ((splitOnChar '\n' (collapseRuns ' ' (collapseRuns '\n' text))).map
      pyStrip).filter (fun line => !line.isEmpty), p ≠ [] :=
    fun p hp => (hfrom p hp).1
  have hchp : ∀ p ∈ ((splitOnChar '\n' (collapseRuns ' ' (collapseRuns '\n' text))).map
      pyStrip).filter (fun line => !line.isEmpty), List.Chain' (noDouble ' ') p := by
    intro p hp
    obtain ⟨_, q, hq, rfl⟩ := hfrom p hp
    have hqch := splitOnChar_chain' '\n' _ hch2 q hq
    exact pyStrip_chain' hqch
  have hheadp : ∀ p ∈ ((splitOnChar '\n' (collapseRuns ' ' (collapseRuns '\n' text))).map
      pyStrip).filter (fun line => !line.isEmpty),
      ∀ y ∈ p.head?, isPyWs y = false := by
    intro p hp
    obtain ⟨_, q, _, rfl⟩ := hfrom p hp
    exact pyStrip_head q
  have hlastp : ∀ p ∈ ((splitOnChar '\n' (collapseRuns ' ' (collapseRuns '\n' text))).map
      pyStrip).filter (fun line => !line.isEmpty),
      ∀ y ∈ p.getLast?, isPyWs y = false := by
    intro p hp
    obtain ⟨_, q, _, rfl⟩ := hfrom p hp
    exact pyStrip_last q
  refine ⟨?_, ?_, ?_, ?_⟩
  · intro hmem
    rw [clean_text] at hmem
    rcases joinWith_mem _ hmem with h | ⟨p, hp, hx⟩
    · exact absurd h (by decide)
    · obtain ⟨_, q, hq, rfl⟩ := hfrom p hp
      exact splitOnChar_not_mem '\n' _ q hq (pyStrip_subset hx)
  · rw [clean_text]
    exact joinWith_chain' _ hnep hchp hheadp hlastp
  · rw [clean_text]
    exact joinWith_head_false _ hnep hheadp
  · rw [clean_text]
    exact joinWith_last_false _ hnep hlastp

/-- Helper: clean_text is the identity on texts already satisfying its output
invariant. -/
theorem clean_text_fixed (O : List Char) (h1 : '\n' ∉ O)
    (h2 : List.Chain' (noDouble ' ') O)
    (h3 : ∀ y ∈ O.head?, isPyWs y = false)
    (h4 : ∀ y ∈ O.getLast?, isPyWs y = false) :
    clean_text O = O := by
  have e1 : collapseRuns '\n' O = O := collapseRuns_of_not_mem '\n' O h1
  have e2 : collapseRuns ' ' O = O := collapseRuns_eq_self ' ' O h2
  have e3 : splitOnChar '\n' O = [O] := splitOnChar_of_not_mem '\n' O h1
  have e4 : pyStrip O = O := pyStrip_eq_self h3 h4
  rw [clean_text, e1, e2, e3, List.map_singleton, e4]
  cases hO : O with
  | nil => rfl
  | cons a as =>
    rw [List.filter_cons]
    simp only [List.isEmpty_cons, Bool.not_false, if_true, List.filter_nil]
    rfl

/-- C7: cleaning is a pure function of its input and is idempotent: applying
clean_text to an already-cleaned text returns it unchanged, so re-running the
extraction cleaning step on the same raw text yields identical cleaned text. -/
theorem C7_clean_idempotent (text : List Char) :
    clean_text (clean_text text) = clean_text text := by
  obtain ⟨h1, h2, h3, h4⟩ := clean_text_inv text
  exact clean_text_fixed (clean_text text) h1 h2 h3 h4

end StockAgent
